import Mathlib

/-
Verification of the capture/queueing/formatting pipeline of
tmk/Soarer_LA_sctrace (sctrace.c), by a shallow embedding in Lean 4.

Bytes are modelled as `Nat` (the C program only moves 8-bit values around;
where a claim depends on the 8-bit range, the theorem carries `< 256`
hypotheses).  The output queue's byte array `oqueue[OQSZ]` is modelled as a
function `Nat → Nat` together with the two cursors `oqhead`/`oqtail` as byte
offsets into the array.  `OQSZ` is `((RAM_SIZE - 512) / 4) * 4` in the source,
with `RAM_SIZE` taken from the AVR device header, so it is not fixed by the
repository; the development is parametric in the number of entry slots `K`
(so `OQSZ = OQENTRYSZ * K = 4 * K`).
-/

/-- One sample, laid out in both queues as 4 consecutive bytes
`[time_lo, time_hi, port_state, kind]` (sctrace.c lines 205-208 read them in
this order; the ISR stores them in this order as well). -/
structure Sample where
  tlo : Nat
  thi : Nat
  pv : Nat
  kind : Nat
deriving DecidableEq

/-- sctrace.c line 78-81:
`inline char hex(uint8_t v) { return (v + ((v < 10) ? '0' : 'A' - 10)); }`
('0' = 48, 'A' - 10 = 55).  The result is a character code. -/
def hex (v : Nat) : Nat :=
  v + (if v < 10 then 48 else 55)

/-- sctrace.c line 88: `#define OQENTRYSZ 4`. -/
abbrev OQENTRYSZ : Nat := 4

/-- The output-queue state: the byte array `oqueue` (line 91) and the two
cursors `oqhead`, `oqtail` (lines 92-93), as byte offsets from `oqueue`. -/
structure OQ where
  buf : Nat → Nat
  head : Nat
  tail : Nat

/-- A single byte store `buf[a] = v` into a byte array. -/
def wr (buf : Nat → Nat) (a v : Nat) : Nat → Nat :=
  fun i => if i = a then v else buf i

/-- Startup state of the output queue: both cursors at the start of the
array (lines 92-93); the array is a zeroed C static. -/
def oqinit : OQ :=
  { buf := fun _ => 0, head := 0, tail := 0 }

/-- sctrace.c lines 95-102:
```
inline uint8_t* oqnext(uint8_t* p) {
  uint8_t* pnext = p + OQENTRYSZ;
  if ( pnext == &oqueue[OQSZ] ) { pnext = oqueue; }
  return pnext;
}
``` -/
def oqnext (OQSZ p : Nat) : Nat :=
  if p + OQENTRYSZ = OQSZ then 0 else p + OQENTRYSZ

/-- sctrace.c lines 104-116:
```
inline uint8_t oqpush(uint8_t v1, uint8_t v2, uint8_t v3, uint8_t v4) {
  uint8_t* p = oqnext(oqhead);
  if ( p == oqtail ) { return 0; } // full
  oqhead[0] = v1; oqhead[1] = v2; oqhead[2] = v3; oqhead[3] = v4;
  oqhead = p;
  return 1; // ok
}
```
Returns the C result (`true` = 1 = ok, `false` = 0 = full) with the new
queue state. -/
def oqpush (OQSZ : Nat) (q : OQ) (v1 v2 v3 v4 : Nat) : Bool × OQ :=
  if oqnext OQSZ q.head = q.tail then
    (false, q)
  else
    (true,
     { buf := wr (wr (wr (wr q.buf q.head v1) (q.head + 1) v2) (q.head + 2) v3)
                (q.head + 3) v4,
       head := oqnext OQSZ q.head,
       tail := q.tail })

/-- sctrace.c lines 118-121: `inline uint8_t oqempty(void) { return oqhead == oqtail; }` -/
def oqempty (q : OQ) : Bool :=
  q.head == q.tail

/-- The 4 bytes of the entry stored at byte offset `p`. -/
def entryAt (buf : Nat → Nat) (p : Nat) : Sample :=
  ⟨buf p, buf (p + 1), buf (p + 2), buf (p + 3)⟩

/-- sctrace.c lines 123-134:
```
inline uint8_t oqpop(uint8_t* v1, uint8_t* v2, uint8_t* v3, uint8_t* v4) {
  if ( oqempty() ) { return 0; } // empty
  *v1 = oqtail[0]; *v2 = oqtail[1]; *v3 = oqtail[2]; *v4 = oqtail[3];
  oqtail = oqnext(oqtail);
  return 1; // ok
}
```
`none` models the early return 0 (nothing written, no cursor moved). -/
def oqpop (OQSZ : Nat) (q : OQ) : Option (Sample × OQ) :=
  if oqempty q then
    none
  else
    some (entryAt q.buf q.tail, { q with tail := oqnext OQSZ q.tail })

/-- Number of entries currently held by a queue with `K` slots
(cursors are byte offsets, one entry is 4 bytes). -/
def oqcount (K : Nat) (q : OQ) : Nat :=
  (q.head / 4 + K - q.tail / 4) % K

/-- The entries of the queue, oldest (at `oqtail`) first. -/
def oqcontents (K : Nat) (q : OQ) : List Sample :=
  (List.range (oqcount K q)).map fun i => entryAt q.buf (4 * ((q.tail / 4 + i) % K))

/-- Cursor well-formedness for a `K`-slot queue: both cursors sit on an
entry boundary inside `oqueue[0 .. 4*K)`.  Holds at startup and is the
invariant of claim C9. -/
abbrev OQInv (K : Nat) (q : OQ) : Prop :=
  q.head % 4 = 0 ∧ q.head < 4 * K ∧ q.tail % 4 = 0 ∧ q.tail < 4 * K

/-- Abstraction relation: the queue holds `c` entries, the oldest at slot
`t` (so `oqtail = 4*t` and `oqhead` is `c` slots further, modulo `K`). -/
abbrev reps (K : Nat) (q : OQ) (t c : Nat) : Prop :=
  q.tail = 4 * t ∧ q.head = 4 * ((t + c) % K) ∧ t < K ∧ c < K

/-- Push a list of samples in order, collecting each push's result flag. -/
def oqpushList (K : Nat) (q : OQ) : List Sample → OQ × List Bool
  | [] => (q, [])
  | x :: xs =>
    let r := oqpush (4 * K) q x.tlo x.thi x.pv x.kind
    let rest := oqpushList K r.2 xs
    (rest.1, r.1 :: rest.2)

/-- sctrace.c line 200: `const uint8_t max_timer_events = 2;`. -/
abbrev max_timer_events : Nat := 2

/-- The entry the dispatcher pushes for an input sample `x`
(sctrace.c lines 205-218): the three data bytes unchanged, and the fourth
byte replaced by `is_timer_event = !kind`. -/
def encodeOut (x : Sample) : Sample :=
  ⟨x.tlo, x.thi, x.pv, if x.kind = 0 then 1 else 0⟩

/-- The dispatcher (sctrace.c lines 204-221), iterated over a list of input
samples (the loop drains one input entry per pass; its cumulative effect on
a batch is this fold):
```
uint8_t is_timer_event = !iqueue[iqtail+3];
if ( is_timer_event ) {
  if ( allow_timer_events ) { oqpush(tlo, thi, pv, is_timer_event); --allow_timer_events; }
} else {
  oqpush(tlo, thi, pv, is_timer_event);
  allow_timer_events = max_timer_events;
}
```
Returns the final queue, the final allowance, and the list of input samples
that were handed to `oqpush` (in order). -/
def dispatch (K : Nat) : OQ → Nat → List Sample → OQ × Nat × List Sample
  | q, allow, [] => (q, allow, [])
  | q, allow, x :: xs =>
    if (if x.kind = 0 then (1 : Nat) else 0) ≠ 0 then
      if allow ≠ 0 then
        let r := dispatch K (oqpush (4 * K) q x.tlo x.thi x.pv
                    (if x.kind = 0 then (1 : Nat) else 0)).2 (allow - 1) xs
        (r.1, r.2.1, x :: r.2.2)
      else
        dispatch K q allow xs
    else
      let r := dispatch K (oqpush (4 * K) q x.tlo x.thi x.pv
                  (if x.kind = 0 then (1 : Nat) else 0)).2 max_timer_events xs
      (r.1, r.2.1, x :: r.2.2)

/-- The dispatcher's forwarding decision alone (same branch structure as
`dispatch`, without the queue):  final allowance and forwarded samples. -/
def dispatchPolicy : Nat → List Sample → Nat × List Sample
  | allow, [] => (allow, [])
  | allow, x :: xs =>
    if x.kind = 0 then
      if allow ≠ 0 then
        let r := dispatchPolicy (allow - 1) xs
        (r.1, x :: r.2)
      else
        dispatchPolicy allow xs
    else
      let r := dispatchPolicy max_timer_events xs
      (r.1, x :: r.2)

/-- sctrace.c line 235: `const uint8_t items_per_line = 10;`. -/
abbrev items_per_line : Nat := 10

/-- The formatter body (sctrace.c lines 227-244): renders one popped sample
into the line buffer `obuf` and updates the `remaining` line counter:
```
obuf[i++] = hex(thi >> 4); obuf[i++] = hex(thi & 0x0F);
obuf[i++] = hex(tlo >> 4); obuf[i++] = hex(tlo & 0x0F);
obuf[i++] = hex(pv >> 4);  obuf[i++] = hex(pv & 0x0F);
obuf[i++] = hex(tf & 0x01);
if ( --remaining ) { obuf[i++] = ' '; } else { obuf[i++] = '\n'; remaining = items_per_line; }
obuf[i++] = 0;
```
(' ' = 32, '\n' = 10; `remaining` is in 1..10 whenever the formatter runs,
so the uint8 decrement is `remaining - 1` on Nat). -/
def formatSample (s : Sample) (remaining : Nat) : List Nat × Nat :=
  if remaining - 1 ≠ 0 then
    ([hex (s.thi / 16), hex (s.thi % 16), hex (s.tlo / 16), hex (s.tlo % 16),
      hex (s.pv / 16), hex (s.pv % 16), hex (s.kind % 2), 32, 0], remaining - 1)
  else
    ([hex (s.thi / 16), hex (s.thi % 16), hex (s.tlo / 16), hex (s.tlo % 16),
      hex (s.pv / 16), hex (s.pv % 16), hex (s.kind % 2), 10, 0], items_per_line)

/-- The formatter iterated over a list of samples, threading the line
counter; gives the successive `obuf` contents. -/
def formatList : Nat → List Sample → List (List Nat)
  | _, [] => []
  | remaining, x :: xs =>
    (formatSample x remaining).1 :: formatList (formatSample x remaining).2 xs

/-- A sample's one trip through dispatcher → output queue → formatter,
starting from an empty queue with a fresh allowance and a fresh line:
the `obuf` contents produced for it. -/
def pipelineGroup (K : Nat) (x : Sample) : List Nat :=
  match oqpop (4 * K) (dispatch K oqinit max_timer_events [x]).1 with
  | some r => (formatSample r.1 items_per_line).1
  | none => []

/-- The character codes of a string. -/
def stringBytes (s : String) : List Nat :=
  s.data.map Char.toNat

/-- sctrace.c line 199: `print("sctrace v1.01\n");`. -/
def bannerBytes : List Nat :=
  stringBytes "sctrace v1.01\n"

/-- The characters the formatter can emit: space, newline, '0'-'9', 'A'-'F'. -/
def allowed (c : Nat) : Bool :=
  c == 32 || c == 10 || (decide (48 ≤ c) && decide (c ≤ 57))
    || (decide (65 ≤ c) && decide (c ≤ 70))

/-- The normal-context state of `main` (sctrace.c lines 194-255): pending
input-queue entries, the output queue, the throttling allowance, the text
buffer `obuf` with its read index and the line counter, and the transcript
of characters handed to `usb_debug_putchar` (with the banner printed first,
line 199). -/
structure MainState where
  inputs : List Sample
  oq : OQ
  allow : Nat
  obuf : List Nat
  obuf_idx : Nat
  remaining : Nat
  emitted : List Nat

/-- State right after the banner print (lines 195-201): `obuf[0] = 0`,
`obuf_idx = 0`, `allow_timer_events = max_timer_events`, `remaining = 10`,
queue cursors at the array start. -/
def initMain (inputs : List Sample) : MainState :=
  { inputs := inputs, oq := oqinit, allow := max_timer_events,
    obuf := [0], obuf_idx := 0, remaining := items_per_line,
    emitted := bannerBytes }

/-- First block of the main loop (lines 204-221): drain at most one input
entry and run the throttling policy. -/
def dispatchStep (K : Nat) (s : MainState) : MainState :=
  match s.inputs with
  | [] => s
  | x :: xs =>
    if (if x.kind = 0 then (1 : Nat) else 0) ≠ 0 then
      if s.allow ≠ 0 then
        { s with inputs := xs,
                 oq := (oqpush (4 * K) s.oq x.tlo x.thi x.pv
                         (if x.kind = 0 then (1 : Nat) else 0)).2,
                 allow := s.allow - 1 }
      else
        { s with inputs := xs }
    else
      { s with inputs := xs,
               oq := (oqpush (4 * K) s.oq x.tlo x.thi x.pv
                       (if x.kind = 0 then (1 : Nat) else 0)).2,
               allow := max_timer_events }

/-- Second block (lines 224-245): `if ( !obuf[obuf_idx] && !oqempty() )`
pop one sample and render it into `obuf`, resetting `obuf_idx`. -/
def formatStep (K : Nat) (s : MainState) : MainState :=
  if s.obuf.getD s.obuf_idx 0 = 0 then
    match oqpop (4 * K) s.oq with
    | some r =>
      { s with oq := r.2,
               obuf := (formatSample r.1 s.remaining).1,
               obuf_idx := 0,
               remaining := (formatSample r.1 s.remaining).2 }
    | none => s
  else s

/-- Third block (lines 248-250): `if ( obuf[obuf_idx] && usb_debug_ready() )`
emit one character and advance the buffer index. -/
def transmitStep (ready : Bool) (s : MainState) : MainState :=
  if s.obuf.getD s.obuf_idx 0 ≠ 0 ∧ ready = true then
    { s with emitted := s.emitted ++ [s.obuf.getD s.obuf_idx 0],
             obuf_idx := s.obuf_idx + 1 }
  else s

/-- One pass of the `while (1)` loop (lines 202-255), with the channel
readiness for this pass supplied by the environment.  (`usb_debug_task()`
touches no state modelled here.) -/
def mainStep (K : Nat) (ready : Bool) (s : MainState) : MainState :=
  transmitStep ready (formatStep K (dispatchStep K s))

/-- `fuel` passes of the main loop; `ready n` is the channel readiness
during the pass with countdown value `n`. -/
def runLoop (K : Nat) (ready : Nat → Bool) : Nat → MainState → MainState
  | 0, s => s
  | n + 1, s => runLoop K ready n (mainStep K (ready n) s)

/-- sctrace.c line 72: `#define IQPAGE 1` (high byte of the input-queue
address: the queue is the 256 bytes at 0x0100). -/
abbrev IQPAGE : Nat := 1

/-- The machine state the capture ISR touches: the pending-interrupt flag
register, the monitored port, the two timer-count registers, the dedicated
registers r3-r6 (register_vars.h), data memory, and the X pointer register
(r27:r26 = `iqpage:iqhead`). -/
structure AVRState where
  eifr : Nat
  pin : Nat
  tcnt1l : Nat
  tcnt1h : Nat
  r3 : Nat
  r4 : Nat
  r5 : Nat
  r6 : Nat
  mem : Nat → Nat
  xreg : Nat

/-- Observable effects of the ISR, in execution order. -/
inductive ISREv where
  | clearPending : ISREv
  | readPin : ISREv
  | readTlo : ISREv
  | readThi : ISREv
  | store : Nat → Nat → ISREv
  | setPageHigh : ISREv
deriving DecidableEq

/-- sctrace.c lines 261-276, the `_CAPTURE_ISR(capflag)` instruction
sequence, one Lean step per instruction:
```
out %[eifr], r6     ; clear pending external interrupts
in r3, %[pin]       ; read port
lds r4, %[tcnt1l]   ; read timer lo
lds r5, %[tcnt1h]   ; read timer hi
st X+, r4           ; store timer lo
st X+, r5           ; store timer hi
st X+, r3           ; store port state
st X+, capflag      ; store capture/tick marker
ldi r27, %[iqpage]  ; reset high byte of X
reti
```
`out` to the flag register clears the flag bits that are 1 in r6
(write-one-to-clear); `st X+` stores at X then increments X as a 16-bit
pointer; `ldi r27, IQPAGE` forces the high byte back to the queue page.
The second component is the trace of effects, in order. -/
def _CAPTURE_ISR (cap : AVRState → Nat) (s0 : AVRState) : AVRState × List ISREv :=
  let s1 := { s0 with eifr := s0.eifr &&& (255 ^^^ (s0.r6 &&& 255)) }
  let s2 := { s1 with r3 := s1.pin }
  let s3 := { s2 with r4 := s2.tcnt1l }
  let s4 := { s3 with r5 := s3.tcnt1h }
  let s5 := { s4 with mem := wr s4.mem s4.xreg s4.r4, xreg := (s4.xreg + 1) % 65536 }
  let s6 := { s5 with mem := wr s5.mem s5.xreg s5.r5, xreg := (s5.xreg + 1) % 65536 }
  let s7 := { s6 with mem := wr s6.mem s6.xreg s6.r3, xreg := (s6.xreg + 1) % 65536 }
  let s8 := { s7 with mem := wr s7.mem s7.xreg (cap s7), xreg := (s7.xreg + 1) % 65536 }
  let s9 := { s8 with xreg := IQPAGE * 256 + s8.xreg % 256 }
  (s9, [ISREv.clearPending, ISREv.readPin, ISREv.readTlo, ISREv.readThi,
        ISREv.store s4.xreg s4.r4, ISREv.store s5.xreg s5.r5,
        ISREv.store s6.xreg s6.r3, ISREv.store s7.xreg (cap s7),
        ISREv.setPageHigh])

/-- sctrace.c line 278: `#define TIMER_ISR() _CAPTURE_ISR(__zero_reg__)` —
the timer-rollover invocation stores the constant 0 as the kind byte. -/
def TIMER_ISR : AVRState → AVRState × List ISREv :=
  _CAPTURE_ISR fun _ => 0

/-- sctrace.c line 279: `#define CAPTURE_ISR() _CAPTURE_ISR(r6)` — an edge
invocation stores r6 (`eifrclr`, a nonzero constant) as the kind byte. -/
def CAPTURE_ISR : AVRState → AVRState × List ISREv :=
  _CAPTURE_ISR fun s => s.r6

/-- Byte-bound and transcript invariant of the main loop, used for C8:
queue bytes and inputs stay below 256, `obuf` holds only formatter
characters (or the 0 sentinel), and everything emitted after the banner is
a formatter character. -/
def goodState (s : MainState) : Prop :=
  (∀ a, s.oq.buf a < 256) ∧
  (∀ x ∈ s.inputs, x.tlo < 256 ∧ x.thi < 256 ∧ x.pv < 256 ∧ x.kind < 256) ∧
  (∀ ch ∈ s.obuf, ch = 0 ∨ allowed ch = true) ∧
  (∃ r, s.emitted = bannerBytes ++ r ∧ ∀ ch ∈ r, allowed ch = true)

/- ===================== helper lemmas ===================== -/

theorem addmod_inj (K t a b : Nat) (ha : a < K) (hb : b < K)
    (h : (t + a) % K = (t + b) % K) : a = b := by
  rcases Nat.le_total a b with hab | hab
  · have hm : a ≡ b [MOD K] := Nat.ModEq.add_left_cancel' t h
    have hd := (Nat.modEq_iff_dvd' hab).mp hm
    have := Nat.eq_zero_of_dvd_of_lt hd (by omega)
    omega
  · have hm : b ≡ a [MOD K] := Nat.ModEq.add_left_cancel' t h.symm
    have hd := (Nat.modEq_iff_dvd' hab).mp hm
    have := Nat.eq_zero_of_dvd_of_lt hd (by omega)
    omega

theorem oqnext_mul (K m : Nat) (hm : m < K) :
    oqnext (4 * K) (4 * m) = 4 * ((m + 1) % K) := by
  unfold oqnext
  simp only [OQENTRYSZ]
  by_cases h : m + 1 = K
  · rw [if_pos (by omega)]
    have : (m + 1) % K = 0 := by rw [h, Nat.mod_self]
    omega
  · rw [if_neg (by omega)]
    have : (m + 1) % K = m + 1 := Nat.mod_eq_of_lt (by omega)
    omega

theorem oqcount_reps (K : Nat) (q : OQ) (t c : Nat) (hr : reps K q t c) :
    oqcount K q = c := by
  obtain ⟨ht, hh, htK, hcK⟩ := hr
  unfold oqcount
  rw [hh, ht, Nat.mul_div_cancel_left _ (by norm_num),
      Nat.mul_div_cancel_left _ (by norm_num)]
  have h1 : (t + c) % K + K - t = (t + c) % K + (K - t) := by omega
  rw [h1, Nat.mod_add_mod]
  have h2 : t + c + (K - t) = c + K := by omega
  rw [h2, Nat.add_mod_right, Nat.mod_eq_of_lt hcK]

theorem oqcontents_reps (K : Nat) (q : OQ) (t c : Nat) (hr : reps K q t c) :
    oqcontents K q
      = (List.range c).map fun i => entryAt q.buf (4 * ((t + i) % K)) := by
  unfold oqcontents
  rw [oqcount_reps K q t c hr, hr.1, Nat.mul_div_cancel_left _ (by norm_num)]

theorem entryAt_wr4 (buf : Nat → Nat) (p a b d e : Nat) :
    entryAt (wr (wr (wr (wr buf p a) (p + 1) b) (p + 2) d) (p + 3) e) p
      = ⟨a, b, d, e⟩ := by
  simp only [entryAt, wr, Sample.mk.injEq]
  refine ⟨?_, ?_, ?_, ?_⟩ <;>
    · repeat rw [if_neg (by omega)]
      simp

theorem entryAt_wr4_ne (buf : Nat → Nat) (m s a b d e : Nat) (h : s ≠ m) :
    entryAt (wr (wr (wr (wr buf (4 * m) a) (4 * m + 1) b) (4 * m + 2) d)
               (4 * m + 3) e) (4 * s)
      = entryAt buf (4 * s) := by
  simp only [entryAt, wr, Sample.mk.injEq]
  refine ⟨?_, ?_, ?_, ?_⟩ <;>
    · rw [if_neg (by omega), if_neg (by omega), if_neg (by omega), if_neg (by omega)]

theorem reps_oqinit (K : Nat) (hK : 0 < K) : reps K oqinit 0 0 := by
  refine ⟨rfl, ?_, hK, hK⟩
  simp [oqinit]

theorem oqpush_ok (K : Nat) (q : OQ) (t c a b d e : Nat)
    (hr : reps K q t c) (hc : c + 1 < K) :
    (oqpush (4 * K) q a b d e).1 = true
    ∧ reps K (oqpush (4 * K) q a b d e).2 t (c + 1)
    ∧ oqcontents K (oqpush (4 * K) q a b d e).2
        = oqcontents K q ++ [⟨a, b, d, e⟩] := by
  obtain ⟨ht, hh, htK, hcK⟩ := hr
  have hK : 0 < K := by omega
  have hmlt : (t + c) % K < K := Nat.mod_lt _ hK
  have hnext : oqnext (4 * K) q.head = 4 * (((t + c) % K + 1) % K) := by
    rw [hh]; exact oqnext_mul K _ hmlt
  have hstep : ((t + c) % K + 1) % K = (t + (c + 1)) % K := by
    rw [Nat.mod_add_mod, Nat.add_assoc]
  have hne : oqnext (4 * K) q.head ≠ q.tail := by
    rw [hnext, hstep, ht]
    intro heq
    have heq' : (t + (c + 1)) % K = (t + 0) % K := by
      have h0 : (t + 0) % K = t := by rw [Nat.add_zero, Nat.mod_eq_of_lt htK]
      omega
    have := addmod_inj K t (c + 1) 0 hc hK heq'
    omega
  have hpush : oqpush (4 * K) q a b d e
      = (true,
         { buf := wr (wr (wr (wr q.buf q.head a) (q.head + 1) b) (q.head + 2) d)
                    (q.head + 3) e,
           head := oqnext (4 * K) q.head,
           tail := q.tail }) := by
    unfold oqpush; rw [if_neg hne]
  have hreps : reps K (oqpush (4 * K) q a b d e).2 t (c + 1) := by
    rw [hpush]
    exact ⟨ht, by rw [hnext, hstep], htK, hc⟩
  refine ⟨by rw [hpush], hreps, ?_⟩
  rw [oqcontents_reps K _ t (c + 1) hreps,
      oqcontents_reps K q t c ⟨ht, hh, htK, hcK⟩,
      List.range_succ, List.map_append, List.map_singleton]
  have hframe : ∀ i ∈ List.range c,
      entryAt (oqpush (4 * K) q a b d e).2.buf (4 * ((t + i) % K))
        = entryAt q.buf (4 * ((t + i) % K)) := by
    intro i hi
    rw [List.mem_range] at hi
    rw [hpush]
    show entryAt (wr (wr (wr (wr q.buf q.head a) (q.head + 1) b) (q.head + 2) d)
          (q.head + 3) e) (4 * ((t + i) % K)) = _
    rw [hh]
    refine entryAt_wr4_ne q.buf ((t + c) % K) ((t + i) % K) a b d e ?_
    intro heq
    have := addmod_inj K t i c (by omega) hcK heq
    omega
  rw [List.map_congr_left hframe]
  have hlast : entryAt (oqpush (4 * K) q a b d e).2.buf (4 * ((t + c) % K))
      = ⟨a, b, d, e⟩ := by
    rw [hpush]
    show entryAt (wr (wr (wr (wr q.buf q.head a) (q.head + 1) b) (q.head + 2) d)
          (q.head + 3) e) (4 * ((t + c) % K)) = _
    rw [← hh]
    exact entryAt_wr4 q.buf q.head a b d e
  rw [hlast]

theorem oqpush_full (K : Nat) (q : OQ) (t a b d e : Nat) (hK : 0 < K)
    (hr : reps K q t (K - 1)) :
    oqpush (4 * K) q a b d e = (false, q) := by
  obtain ⟨ht, hh, htK, hcK⟩ := hr
  have hmlt : (t + (K - 1)) % K < K := Nat.mod_lt _ hK
  have hnext : oqnext (4 * K) q.head = 4 * (((t + (K - 1)) % K + 1) % K) := by
    rw [hh]; exact oqnext_mul K _ hmlt
  have hwrap : ((t + (K - 1)) % K + 1) % K = t := by
    rw [Nat.mod_add_mod]
    have e1 : t + (K - 1) + 1 = t + K := by omega
    rw [e1, Nat.add_mod_right, Nat.mod_eq_of_lt htK]
  unfold oqpush
  rw [if_pos (by rw [hnext, hwrap, ht])]

theorem oqpushList_spec (K : Nat) (L : List Sample) :
    ∀ (q : OQ) (t c : Nat), reps K q t c →
    (oqpushList K q L).2
      = List.replicate (min L.length (K - 1 - c)) true
        ++ List.replicate (L.length - (K - 1 - c)) false
    ∧ oqcontents K (oqpushList K q L).1 = oqcontents K q ++ L.take (K - 1 - c) := by
  induction L with
  | nil =>
    intro q t c _
    constructor <;> simp [oqpushList]
  | cons x xs ih =>
    intro q t c hr
    have hcK : c < K := hr.2.2.2
    by_cases hfull : c = K - 1
    · subst hfull
      have hK : 0 < K := by omega
      have hp := oqpush_full K q t x.tlo x.thi x.pv x.kind hK hr
      have hstep : oqpushList K q (x :: xs)
          = ((oqpushList K q xs).1, false :: (oqpushList K q xs).2) := by
        simp [oqpushList, hp]
      obtain ⟨h1, h2⟩ := ih q t (K - 1) hr
      have e0 : K - 1 - (K - 1) = 0 := by omega
      rw [e0] at h1 h2
      rw [hstep]
      constructor
      · simp only [Nat.min_zero, List.replicate_zero, List.nil_append,
          Nat.sub_zero] at h1
        simp [h1, e0, List.replicate_succ]
      · simpa [e0] using h2
    · have hc1 : c + 1 < K := by omega
      obtain ⟨hp1, hp2, hp3⟩ := oqpush_ok K q t c x.tlo x.thi x.pv x.kind hr hc1
      obtain ⟨h1, h2⟩ := ih (oqpush (4 * K) q x.tlo x.thi x.pv x.kind).2 t (c + 1) hp2
      have hstep : oqpushList K q (x :: xs)
          = ((oqpushList K (oqpush (4 * K) q x.tlo x.thi x.pv x.kind).2 xs).1,
             (oqpush (4 * K) q x.tlo x.thi x.pv x.kind).1
               :: (oqpushList K (oqpush (4 * K) q x.tlo x.thi x.pv x.kind).2 xs).2) := by
        simp [oqpushList]
      rw [hstep]
      constructor
      · rw [hp1, h1, List.length_cons]
        have e1 : min (xs.length + 1) (K - 1 - c)
            = min xs.length (K - 1 - (c + 1)) + 1 := by omega
        have e2 : xs.length + 1 - (K - 1 - c) = xs.length - (K - 1 - (c + 1)) := by
          omega
        rw [e1, e2, List.replicate_succ, List.cons_append]
      · rw [h2, hp3, List.append_assoc]
        congr 1
        have e3 : K - 1 - c = K - 1 - (c + 1) + 1 := by omega
        rw [e3, List.take_succ_cons]
        simp

theorem dispatch_policy_eq (K : Nat) :
    ∀ (l : List Sample) (q : OQ) (allow : Nat),
      (dispatch K q allow l).2 = dispatchPolicy allow l := by
  intro l
  induction l with
  | nil => intro q allow; rfl
  | cons x xs ih =>
    intro q allow
    by_cases hk : x.kind = 0
    · by_cases ha : allow ≠ 0
      · simp [dispatch, dispatchPolicy, hk, ha, ih]
      · simp [dispatch, dispatchPolicy, hk, ha, ih]
    · simp [dispatch, dispatchPolicy, hk, ih]

theorem dispatchPolicy_append (l1 l2 : List Sample) :
    ∀ allow, dispatchPolicy allow (l1 ++ l2)
      = ((dispatchPolicy (dispatchPolicy allow l1).1 l2).1,
         (dispatchPolicy allow l1).2
           ++ (dispatchPolicy (dispatchPolicy allow l1).1 l2).2) := by
  induction l1 with
  | nil => intro allow; simp [dispatchPolicy]
  | cons x xs ih =>
    intro allow
    by_cases hk : x.kind = 0
    · by_cases ha : allow ≠ 0
      · simp [dispatchPolicy, hk, ha, ih]
      · simp [dispatchPolicy, hk, ha, ih]
    · simp [dispatchPolicy, hk, ih]

theorem dispatchPolicy_ticks (ts : List Sample) (hts : ∀ x ∈ ts, x.kind = 0) :
    ∀ allow, dispatchPolicy allow ts = (allow - ts.length, ts.take allow) := by
  induction ts with
  | nil => intro allow; simp [dispatchPolicy]
  | cons x xs ih =>
    intro allow
    have hx : x.kind = 0 := hts x (by simp)
    have hxs : ∀ y ∈ xs, y.kind = 0 := fun y hy => hts y (by simp [hy])
    by_cases ha : allow = 0
    · subst ha
      simp [dispatchPolicy, hx, ih hxs]
    · obtain ⟨a, rfl⟩ : ∃ a, allow = a + 1 := ⟨allow - 1, by omega⟩
      simp [dispatchPolicy, hx, ih hxs, List.take_succ_cons, Prod.ext_iff]

theorem dispatchPolicy_sublist :
    ∀ (l : List Sample) (allow : Nat),
      (dispatchPolicy allow l).2.Sublist l
      ∧ (l.filter fun x => x.kind != 0).Sublist (dispatchPolicy allow l).2 := by
  intro l
  induction l with
  | nil => intro allow; constructor <;> simp [dispatchPolicy]
  | cons x xs ih =>
    intro allow
    by_cases hk : x.kind = 0
    · by_cases ha : allow ≠ 0
      · refine ⟨?_, ?_⟩
        · simpa [dispatchPolicy, hk, ha] using ((ih (allow - 1)).1.cons₂ x)
        · have h2 := (ih (allow - 1)).2
          simpa [dispatchPolicy, hk, ha, List.filter_cons] using h2.cons x
      · refine ⟨?_, ?_⟩
        · simpa [dispatchPolicy, hk, ha] using ((ih allow).1.cons x)
        · simpa [dispatchPolicy, hk, ha, List.filter_cons] using (ih allow).2
    · refine ⟨?_, ?_⟩
      · simpa [dispatchPolicy, hk] using ((ih max_timer_events).1.cons₂ x)
      · simpa [dispatchPolicy, hk, List.filter_cons] using
          ((ih max_timer_events).2.cons₂ x)

theorem dispatch_contents (K : Nat) :
    ∀ (l : List Sample) (q : OQ) (allow t c : Nat), reps K q t c →
      c + (dispatch K q allow l).2.2.length < K →
      oqcontents K (dispatch K q allow l).1
        = oqcontents K q ++ (dispatch K q allow l).2.2.map encodeOut := by
  intro l
  induction l with
  | nil => intro q allow t c _ _; simp [dispatch]
  | cons x xs ih =>
    intro q allow t c hr hcap
    by_cases hk : x.kind = 0
    · by_cases ha : allow ≠ 0
      · have hsimp : dispatch K q allow (x :: xs)
            = ((dispatch K (oqpush (4 * K) q x.tlo x.thi x.pv 1).2 (allow - 1) xs).1,
               (dispatch K (oqpush (4 * K) q x.tlo x.thi x.pv 1).2 (allow - 1) xs).2.1,
               x :: (dispatch K (oqpush (4 * K) q x.tlo x.thi x.pv 1).2 (allow - 1) xs).2.2) := by
          simp [dispatch, hk, ha]
        rw [hsimp] at hcap ⊢
        simp only [List.length_cons] at hcap
        have hc1 : c + 1 < K := by omega
        obtain ⟨_, hp2, hp3⟩ := oqpush_ok K q t c x.tlo x.thi x.pv 1 hr hc1
        have hrec := ih (oqpush (4 * K) q x.tlo x.thi x.pv 1).2 (allow - 1) t (c + 1)
          hp2 (by omega)
        rw [hrec, hp3, List.append_assoc]
        congr 1
        simp [encodeOut, hk]
      · have hsimp : dispatch K q allow (x :: xs) = dispatch K q allow xs := by
          simp [dispatch, hk, ha]
        rw [hsimp] at hcap ⊢
        exact ih q allow t c hr hcap
    · have hsimp : dispatch K q allow (x :: xs)
          = ((dispatch K (oqpush (4 * K) q x.tlo x.thi x.pv 0).2 max_timer_events xs).1,
             (dispatch K (oqpush (4 * K) q x.tlo x.thi x.pv 0).2 max_timer_events xs).2.1,
             x :: (dispatch K (oqpush (4 * K) q x.tlo x.thi x.pv 0).2 max_timer_events xs).2.2) := by
        simp [dispatch, hk]
      rw [hsimp] at hcap ⊢
      simp only [List.length_cons] at hcap
      have hc1 : c + 1 < K := by omega
      obtain ⟨_, hp2, hp3⟩ := oqpush_ok K q t c x.tlo x.thi x.pv 0 hr hc1
      have hrec := ih (oqpush (4 * K) q x.tlo x.thi x.pv 0).2 max_timer_events t (c + 1)
        hp2 (by omega)
      rw [hrec, hp3, List.append_assoc]
      congr 1
      simp [encodeOut, hk]

theorem hex_ne_zero (v : Nat) : hex v ≠ 0 := by
  unfold hex; split <;> omega

theorem hex_allowed : ∀ v, v < 16 → allowed (hex v) = true := by decide

theorem formatSample_snd (x : Sample) (r : Nat) :
    (formatSample x r).2 = if r - 1 ≠ 0 then r - 1 else 10 := by
  unfold formatSample; split <;> simp_all

theorem formatList_shape :
    ∀ (l : List Sample) (r i : Nat), 1 ≤ r → r ≤ 10 → i < l.length →
      ((formatList r l).getD i []).getD 7 0
          = (if (i + 1) % 10 = r % 10 then 10 else 32)
      ∧ ((formatList r l).getD i []).length = 9
      ∧ ((formatList r l).getD i []).getD 8 1 = 0
      ∧ ∀ j, j < 8 → ((formatList r l).getD i []).getD j 0 ≠ 0 := by
  intro l
  induction l with
  | nil => intro r i _ _ hi; simp at hi
  | cons x xs ih =>
    intro r i hr1 hr10 hi
    cases i with
    | zero =>
      by_cases hr : r - 1 = 0
      · have hcond : (0 + 1) % 10 = r % 10 := by omega
        refine ⟨?_, ?_, ?_, ?_⟩ <;>
          simp [formatList, formatSample, hr, hcond, hex_ne_zero]
        intro j hj
        interval_cases j <;> simp [hex_ne_zero]
      · have hcond : ¬((0 + 1) % 10 = r % 10) := by omega
        refine ⟨?_, ?_, ?_, ?_⟩ <;>
          simp [formatList, formatSample, hr, hcond, hex_ne_zero]
        intro j hj
        interval_cases j <;> simp [hex_ne_zero]
    | succ i' =>
      have hlt : i' < xs.length := by simpa using hi
      have hr'1 : 1 ≤ (formatSample x r).2 := by
        rw [formatSample_snd]; split <;> omega
      have hr'10 : (formatSample x r).2 ≤ 10 := by
        rw [formatSample_snd]; split <;> omega
      have ihx := ih (formatSample x r).2 i' hr'1 hr'10 hlt
      have hstep : (formatList r (x :: xs)).getD (i' + 1) []
          = (formatList (formatSample x r).2 xs).getD i' [] := by
        simp [formatList]
      rw [hstep]
      refine ⟨?_, ihx.2.1, ihx.2.2.1, ihx.2.2.2⟩
      rw [ihx.1]
      have hiff : ((i' + 1) % 10 = (formatSample x r).2 % 10)
          ↔ ((i' + 1 + 1) % 10 = r % 10) := by
        rw [formatSample_snd]
        by_cases hc : r - 1 = 0 <;> simp [hc] <;> omega
      rw [if_congr hiff rfl rfl]

theorem wr_lt (buf : Nat → Nat) (p v : Nat) (hb : ∀ a, buf a < 256)
    (hv : v < 256) : ∀ a, wr buf p v a < 256 := by
  intro a
  unfold wr
  split
  · exact hv
  · exact hb a

theorem oqpush_buf_lt (OQSZ : Nat) (q : OQ) (v1 v2 v3 v4 : Nat)
    (hb : ∀ a, q.buf a < 256) (h1 : v1 < 256) (h2 : v2 < 256) (h3 : v3 < 256)
    (h4 : v4 < 256) : ∀ a, (oqpush OQSZ q v1 v2 v3 v4).2.buf a < 256 := by
  unfold oqpush
  split
  · exact hb
  · exact wr_lt _ _ _ (wr_lt _ _ _ (wr_lt _ _ _ (wr_lt _ _ _ hb h1) h2) h3) h4

theorem getD_zero_or_mem (l : List Nat) : ∀ n, l.getD n 0 = 0 ∨ l.getD n 0 ∈ l := by
  induction l with
  | nil => intro n; simp
  | cons a as ih =>
    intro n
    cases n with
    | zero => right; simp
    | succ m =>
      rcases ih m with h | h
      · left; simpa using h
      · right
        simp only [List.getD_cons_succ]
        exact List.mem_cons_of_mem a h

theorem formatSample_mem (s : Sample) (r ch : Nat)
    (h1 : s.tlo < 256) (h2 : s.thi < 256) (h3 : s.pv < 256)
    (h : ch ∈ (formatSample s r).1) : ch = 0 ∨ allowed ch = true := by
  unfold formatSample at h
  split at h <;>
    · simp only [List.mem_cons, List.not_mem_nil, or_false] at h
      rcases h with h | h | h | h | h | h | h | h | h <;> subst h <;>
        first
          | exact Or.inl rfl
          | exact Or.inr (hex_allowed _ (by omega))
          | exact Or.inr (by decide)

theorem dispatchStep_good (K : Nat) (s : MainState) (hs : goodState s) :
    goodState (dispatchStep K s) := by
  obtain ⟨hbuf, hin, hob, hem⟩ := hs
  rcases hI : s.inputs with _ | ⟨x, xs⟩
  · simpa [dispatchStep, hI] using ⟨hbuf, hin, hob, hem⟩
  have hx := hin x (by rw [hI]; exact List.mem_cons_self x xs)
  have hxs : ∀ y ∈ xs, y.tlo < 256 ∧ y.thi < 256 ∧ y.pv < 256 ∧ y.kind < 256 :=
    fun y hy => hin y (by rw [hI]; exact List.mem_cons_of_mem x hy)
  by_cases hk : x.kind = 0
  · by_cases ha : s.allow ≠ 0
    · have hd : dispatchStep K s
          = { s with inputs := xs,
                     oq := (oqpush (4 * K) s.oq x.tlo x.thi x.pv 1).2,
                     allow := s.allow - 1 } := by
        simp [dispatchStep, hI, hk, ha]
      rw [hd]
      exact ⟨fun a => oqpush_buf_lt _ _ _ _ _ _ hbuf hx.1 hx.2.1 hx.2.2.1
        (by norm_num) a, hxs, hob, hem⟩
    · have hd : dispatchStep K s = { s with inputs := xs } := by
        simp [dispatchStep, hI, hk, ha]
      rw [hd]
      exact ⟨hbuf, hxs, hob, hem⟩
  · have hd : dispatchStep K s
        = { s with inputs := xs,
                   oq := (oqpush (4 * K) s.oq x.tlo x.thi x.pv 0).2,
                   allow := max_timer_events } := by
      simp [dispatchStep, hI, hk]
    rw [hd]
    exact ⟨fun a => oqpush_buf_lt _ _ _ _ _ _ hbuf hx.1 hx.2.1 hx.2.2.1
      (by norm_num) a, hxs, hob, hem⟩

theorem formatStep_good (K : Nat) (s : MainState) (hs : goodState s) :
    goodState (formatStep K s) := by
  obtain ⟨hbuf, hin, hob, hem⟩ := hs
  unfold formatStep
  split
  · rcases hpop : oqpop (4 * K) s.oq with _ | r
    · simpa [hpop] using ⟨hbuf, hin, hob, hem⟩
    · have hr : r = (entryAt s.oq.buf s.oq.tail,
          { s.oq with tail := oqnext (4 * K) s.oq.tail }) := by
        unfold oqpop at hpop
        split at hpop
        · exact absurd hpop (by simp)
        · exact (Option.some.inj hpop).symm
      simp only [hpop]
      refine ⟨?_, hin, ?_, hem⟩
      · rw [hr]; exact hbuf
      · intro ch hch
        refine formatSample_mem r.1 s.remaining ch ?_ ?_ ?_ hch <;>
          · rw [hr]; unfold entryAt; exact hbuf _
  · exact ⟨hbuf, hin, hob, hem⟩

theorem transmitStep_good (ready : Bool) (s : MainState) (hs : goodState s) :
    goodState (transmitStep ready s) := by
  obtain ⟨hbuf, hin, hob, r, her, hr⟩ := hs
  unfold transmitStep
  split
  · rename_i hcond
    refine ⟨hbuf, hin, hob, r ++ [s.obuf.getD s.obuf_idx 0], ?_, ?_⟩
    · simp only [her, List.append_assoc]
    · intro ch hch
      rcases List.mem_append.mp hch with h | h
      · exact hr ch h
      · have hch' : ch = s.obuf.getD s.obuf_idx 0 := List.mem_singleton.mp h
        subst hch'
        rcases getD_zero_or_mem s.obuf s.obuf_idx with h0 | hm
        · exact absurd h0 hcond.1
        · rcases hob _ hm with h0 | hall
          · exact absurd h0 hcond.1
          · exact hall
  · exact ⟨hbuf, hin, hob, r, her, hr⟩

theorem initMain_good (inputs : List Sample)
    (hin : ∀ x ∈ inputs, x.tlo < 256 ∧ x.thi < 256 ∧ x.pv < 256 ∧ x.kind < 256) :
    goodState (initMain inputs) := by
  refine ⟨?_, hin, ?_, [], by simp [initMain], by simp⟩
  · intro a; simp [initMain, oqinit]
  · intro ch hch
    simp only [initMain, List.mem_singleton] at hch
    exact Or.inl hch

theorem runLoop_good (K : Nat) (ready : Nat → Bool) :
    ∀ (fuel : Nat) (s : MainState), goodState s →
      goodState (runLoop K ready fuel s) := by
  intro fuel
  induction fuel with
  | zero => intro s hs; exact hs
  | succ n ih =>
    intro s hs
    exact ih _ (transmitStep_good _ _ (formatStep_good K _ (dispatchStep_good K _ hs)))

theorem head_drop_get (l : List Nat) : ∀ i, (l.drop i).head? = l.get? i := by
  induction l with
  | nil => intro i; cases i <;> simp
  | cons a as ih =>
    intro i
    cases i with
    | zero => simp
    | succ m => rw [List.drop_succ_cons, List.get?_cons_succ]; exact ih m

theorem bannerBytes_eq :
    bannerBytes = [115, 99, 116, 114, 97, 99, 101, 32, 118, 49, 46, 48, 49, 10] := by
  decide

theorem take_banner_head (X : List Nat)
    (h : X.take bannerBytes.length = bannerBytes) : X.get? 0 = some 115 := by
  rw [bannerBytes_eq] at h
  cases X with
  | nil => simp at h
  | cons a as =>
    have h14 : (a :: as).take 14 = a :: as.take 13 := rfl
    rw [show ([115, 99, 116, 114, 97, 99, 101, 32, 118, 49, 46, 48, 49, 10] :
        List Nat).length = 14 from rfl, h14] at h
    injection h with h1 _
    simp [h1]

theorem banner_no_s : ∀ i, i < 14 → 0 < i → bannerBytes.get? i ≠ some 115 := by
  decide

theorem allowed_ne_s (c : Nat) (h : allowed c = true) : c ≠ 115 := by
  simp only [allowed, Bool.or_eq_true, Bool.and_eq_true, beq_iff_eq,
    decide_eq_true_eq] at h
  omega

/- ===================== claims ===================== -/

/-- C4: pushing capacity+1 items (= K items, the usable capacity being K-1
entries) into an initially empty Output Queue makes the (capacity+1)-th push
report failure, while the queue's contents after the sequence equal the
first `capacity` items pushed, in push order (head-cursor wraparound at the
end of the array included). -/
theorem c4_wraparound (K : Nat) (hK : 1 ≤ K) (L : List Sample)
    (hL : L.length = K) :
    (oqpushList K oqinit L).2 = List.replicate (K - 1) true ++ [false]
    ∧ oqcontents K (oqpushList K oqinit L).1 = L.take (K - 1) := by
  obtain ⟨h1, h2⟩ := oqpushList_spec K L oqinit 0 0 (reps_oqinit K hK)
  constructor
  · rw [h1, hL]
    have e1 : min K (K - 1 - 0) = K - 1 := by omega
    have e2 : K - (K - 1 - 0) = 1 := by omega
    rw [e1, e2, List.replicate_one]
  · rw [h2]
    have hinit : oqcontents K oqinit = [] := by
      simp [oqcontents, oqcount, oqinit, Nat.mod_self]
    rw [hinit]
    simp

/-- C4 witness: with 3 slots (capacity 2), pushing 3 samples gives
[true, true, false] and leaves the first two samples queued. -/
theorem c4_witness :
    (oqpushList 3 oqinit [⟨1, 2, 3, 4⟩, ⟨5, 6, 7, 8⟩, ⟨9, 10, 11, 12⟩]).2
      = List.replicate (3 - 1) true ++ [false]
    ∧ oqcontents 3 (oqpushList 3 oqinit
        [⟨1, 2, 3, 4⟩, ⟨5, 6, 7, 8⟩, ⟨9, 10, 11, 12⟩]).1
      = [⟨1, 2, 3, 4⟩, ⟨5, 6, 7, 8⟩, ⟨9, 10, 11, 12⟩].take (3 - 1) :=
  c4_wraparound 3 (by decide) [⟨1, 2, 3, 4⟩, ⟨5, 6, 7, 8⟩, ⟨9, 10, 11, 12⟩]
    (by decide)

/-- C5: when the Output Queue is full (the next head position equals the
tail), oqpush returns false and leaves the entire queue state (contents,
head, tail) unchanged; and oqpop on an empty queue (head = tail) returns a
result distinct from a successful pop (the early-return-0 path, modelled as
`none`) and mutates neither cursor nor contents. -/
theorem c5_full_empty_safe (K : Nat) (q q2 : OQ) (v1 v2 v3 v4 : Nat)
    (hfull : oqnext (4 * K) q.head = q.tail) (hempty : q2.head = q2.tail) :
    oqpush (4 * K) q v1 v2 v3 v4 = (false, q) ∧ oqpop (4 * K) q2 = none := by
  constructor
  · unfold oqpush
    rw [if_pos hfull]
  · unfold oqpop oqempty
    rw [hempty]
    simp

/-- C5 witness: with 2 slots, one push fills the queue; the next push fails
and returns the state unchanged, and popping the empty initial queue gives
none. -/
theorem c5_witness :
    oqpush (4 * 2) ((oqpush (4 * 2) oqinit 1 2 3 4).2) 5 6 7 8
      = (false, (oqpush (4 * 2) oqinit 1 2 3 4).2)
    ∧ oqpop (4 * 2) oqinit = none :=
  c5_full_empty_safe 2 ((oqpush (4 * 2) oqinit 1 2 3 4).2) oqinit 5 6 7 8
    (by decide) (by decide)

/-- C9: the cursor invariant (both cursors on an entry boundary, strictly
inside the array) is preserved by every oqpush and oqpop, and under it all
four byte accesses through oqhead (in oqpush) and through oqtail (in oqpop)
are within the bounds of oqueue[0 .. OQSZ). -/
theorem c9_inv (K : Nat) (q : OQ) (hK : 0 < K) (hq : OQInv K q)
    (v1 v2 v3 v4 : Nat) :
    OQInv K (oqpush (4 * K) q v1 v2 v3 v4).2
    ∧ (∀ s q', oqpop (4 * K) q = some (s, q') → OQInv K q')
    ∧ q.head % OQENTRYSZ = 0 ∧ q.head + 3 < 4 * K
    ∧ q.tail % OQENTRYSZ = 0 ∧ q.tail + 3 < 4 * K := by
  obtain ⟨hh4, hhlt, ht4, htlt⟩ := hq
  have hnext : ∀ p, p % 4 = 0 → p < 4 * K →
      oqnext (4 * K) p % 4 = 0 ∧ oqnext (4 * K) p < 4 * K := by
    intro p hp4 hplt
    unfold oqnext
    simp only [OQENTRYSZ]
    split
    · constructor <;> omega
    · constructor <;> omega
  refine ⟨?_, ?_, hh4, by omega, ht4, by omega⟩
  · unfold oqpush
    split
    · exact ⟨hh4, hhlt, ht4, htlt⟩
    · exact ⟨(hnext q.head hh4 hhlt).1, (hnext q.head hh4 hhlt).2, ht4, htlt⟩
  · intro s q' hpop
    unfold oqpop at hpop
    split at hpop
    · exact absurd hpop (by simp)
    · have hq' : ({ q with tail := oqnext (4 * K) q.tail } : OQ) = q' :=
        congrArg Prod.snd (Option.some.inj hpop)
      rw [← hq']
      exact ⟨hh4, hhlt, (hnext q.tail ht4 htlt).1, (hnext q.tail ht4 htlt).2⟩

/-- C9 witness: with 2 slots, the invariant holds after pushing twice into
the freshly initialised queue. -/
theorem c9_witness :
    OQInv 2 (oqpush (4 * 2) ((oqpush (4 * 2) oqinit 1 2 3 4).2) 5 6 7 8).2 :=
  (c9_inv 2 ((oqpush (4 * 2) oqinit 1 2 3 4).2) (by decide) (by decide)
    5 6 7 8).1

/-- C10: starting from the empty Output Queue with no pops, exactly
OQSZ/OQENTRYSZ - 1 consecutive oqpush calls succeed and the next one
returns 0; in general oqpush fails precisely when the queue already holds
OQSZ/OQENTRYSZ - 1 entries, so usable capacity is one entry fewer than the
number of entry-sized slots. -/
theorem c10_capacity (K : Nat) (hK : 1 ≤ K) :
    (∀ (q : OQ) (t c v1 v2 v3 v4 : Nat), reps K q t c →
      ((oqpush (4 * K) q v1 v2 v3 v4).1 = false ↔ oqcount K q = K - 1))
    ∧ ∀ L : List Sample, L.length = 4 * K / OQENTRYSZ →
        (oqpushList K oqinit L).2
          = List.replicate (4 * K / OQENTRYSZ - 1) true ++ [false] := by
  have hdiv : 4 * K / OQENTRYSZ = K := by simp only [OQENTRYSZ]; omega
  constructor
  · intro q t c v1 v2 v3 v4 hr
    rw [oqcount_reps K q t c hr]
    constructor
    · intro hfalse
      by_contra hne
      have hc1 : c + 1 < K := by
        have := hr.2.2.2
        omega
      have htrue := (oqpush_ok K q t c v1 v2 v3 v4 hr hc1).1
      rw [htrue] at hfalse
      exact Bool.noConfusion hfalse
    · intro hc
      subst hc
      have hfull := oqpush_full K q t v1 v2 v3 v4 (by omega) hr
      rw [hfull]
  · intro L hL
    obtain ⟨h1, _⟩ := oqpushList_spec K L oqinit 0 0 (reps_oqinit K (by omega))
    rw [h1, hL, hdiv]
    have e1 : min K (K - 1 - 0) = K - 1 := by omega
    have e2 : K - (K - 1 - 0) = 1 := by omega
    rw [e1, e2, List.replicate_one]

/-- C10 witness: with 3 slots, pushing 3 samples from empty yields exactly
2 = OQSZ/OQENTRYSZ - 1 successes followed by a failure. -/
theorem c10_witness :
    (oqpushList 3 oqinit [⟨0, 0, 0, 1⟩, ⟨1, 0, 0, 1⟩, ⟨2, 0, 0, 1⟩]).2
      = List.replicate (4 * 3 / OQENTRYSZ - 1) true ++ [false] :=
  (c10_capacity 3 (by decide)).2 [⟨0, 0, 0, 1⟩, ⟨1, 0, 0, 1⟩, ⟨2, 0, 0, 1⟩]
    (by decide)

/-- C2: for a run of N consecutive tick samples (kind = 0) with no
intervening real capture, the dispatcher starting with a fresh allowance
forwards exactly min(N, MAX_TIMER_EVENTS) = min(N, 2) of them — the first
min(N, 2) of the run — and a subsequent real-capture sample is itself
forwarded and resets the allowance to 2 for the following run of ticks. -/
theorem c2_throttling (K : Nat) (q : OQ) (ts tail2 : List Sample) (cs : Sample)
    (hts : ∀ x ∈ ts, x.kind = 0) (hcs : cs.kind ≠ 0)
    (htail : ∀ x ∈ tail2, x.kind = 0) :
    (dispatch K q max_timer_events (ts ++ cs :: tail2)).2.2
      = ts.take max_timer_events ++ cs :: tail2.take max_timer_events
    ∧ (ts.take max_timer_events).length = min ts.length max_timer_events := by
  constructor
  · rw [dispatch_policy_eq K (ts ++ cs :: tail2) q max_timer_events,
        dispatchPolicy_append ts (cs :: tail2) max_timer_events,
        dispatchPolicy_ticks ts hts]
    simp [dispatchPolicy, hcs, dispatchPolicy_ticks tail2 htail]
  · simp [List.length_take, Nat.min_comm]

/-- C2 witness: three ticks, then a capture, then three more ticks: the
first two ticks of each run go through, the capture goes through. -/
theorem c2_witness :
    (dispatch 1 oqinit max_timer_events
        (([⟨0, 0, 0, 0⟩, ⟨1, 0, 0, 0⟩, ⟨2, 0, 0, 0⟩] : List Sample)
          ++ ⟨3, 0, 0, 15⟩
            :: ([⟨4, 0, 0, 0⟩, ⟨5, 0, 0, 0⟩, ⟨6, 0, 0, 0⟩] : List Sample))).2.2
      = ([⟨0, 0, 0, 0⟩, ⟨1, 0, 0, 0⟩, ⟨2, 0, 0, 0⟩] : List Sample).take
            max_timer_events
        ++ ⟨3, 0, 0, 15⟩
          :: ([⟨4, 0, 0, 0⟩, ⟨5, 0, 0, 0⟩, ⟨6, 0, 0, 0⟩] : List Sample).take
              max_timer_events
    ∧ (([⟨0, 0, 0, 0⟩, ⟨1, 0, 0, 0⟩, ⟨2, 0, 0, 0⟩] : List Sample).take
          max_timer_events).length
      = min ([⟨0, 0, 0, 0⟩, ⟨1, 0, 0, 0⟩, ⟨2, 0, 0, 0⟩] : List Sample).length
          max_timer_events :=
  c2_throttling 1 oqinit [⟨0, 0, 0, 0⟩, ⟨1, 0, 0, 0⟩, ⟨2, 0, 0, 0⟩]
    [⟨4, 0, 0, 0⟩, ⟨5, 0, 0, 0⟩, ⟨6, 0, 0, 0⟩] ⟨3, 0, 0, 15⟩
    (by decide) (by decide) (by decide)

/-- C3: the samples the Dispatcher forwards to the Output Queue form an
in-order subsequence of the produced input sequence (never reordered, only
ticks dropped), every real-capture sample (kind nonzero) is forwarded, and
— as long as the forwarded samples fit in the queue's remaining capacity —
the Output Queue afterwards holds exactly the previous contents followed by
the forwarded samples in order (with the kind byte re-encoded as the
`is_timer_event` flag). -/
theorem c3_order_no_drop (K : Nat) (q : OQ) (allow t c : Nat)
    (l : List Sample) (hr : reps K q t c)
    (hcap : c + (dispatch K q allow l).2.2.length < K) :
    (dispatch K q allow l).2.2.Sublist l
    ∧ (l.filter fun x => x.kind != 0).Sublist (dispatch K q allow l).2.2
    ∧ oqcontents K (dispatch K q allow l).1
        = oqcontents K q ++ (dispatch K q allow l).2.2.map encodeOut := by
  refine ⟨?_, ?_, dispatch_contents K l q allow t c hr hcap⟩
  · have h := (dispatchPolicy_sublist l allow).1
    have he := dispatch_policy_eq K l q allow
    rw [← he] at h
    exact h
  · have h := (dispatchPolicy_sublist l allow).2
    have he := dispatch_policy_eq K l q allow
    rw [← he] at h
    exact h

/-- C3 witness: a tick followed by a capture, dispatched into an empty
4-slot queue: both are forwarded in order and land in the queue. -/
theorem c3_witness :
    (dispatch 4 oqinit 2 [⟨0, 0, 0, 0⟩, ⟨1, 2, 3, 4⟩]).2.2.Sublist
        ([⟨0, 0, 0, 0⟩, ⟨1, 2, 3, 4⟩] : List Sample)
    ∧ (([⟨0, 0, 0, 0⟩, ⟨1, 2, 3, 4⟩] : List Sample).filter
          fun x => x.kind != 0).Sublist
        (dispatch 4 oqinit 2 [⟨0, 0, 0, 0⟩, ⟨1, 2, 3, 4⟩]).2.2
    ∧ oqcontents 4 (dispatch 4 oqinit 2 [⟨0, 0, 0, 0⟩, ⟨1, 2, 3, 4⟩]).1
        = oqcontents 4 oqinit
          ++ (dispatch 4 oqinit 2 [⟨0, 0, 0, 0⟩, ⟨1, 2, 3, 4⟩]).2.2.map encodeOut :=
  c3_order_no_drop 4 oqinit 2 0 0 [⟨0, 0, 0, 0⟩, ⟨1, 2, 3, 4⟩]
    (by decide) (by decide)

set_option maxRecDepth 4096 in
/-- C1 counterexample: running the whole pipeline (dispatcher → output
queue → formatter → transmitter) on the produced Sample
{time_lo = 0x3A, time_hi = 0x01, port_state = 0xF0, kind = 1} emits the
group `013AF00` (final digit 0), not the claimed `013AF01`: the dispatcher
stores `is_timer_event = !kind`, so the rendered flag digit is the
complement of the kind bit. -/
theorem c1_counterexample :
    (runLoop 8 (fun _ => true) 20 (initMain [⟨58, 1, 240, 1⟩])).emitted
      = bannerBytes ++ stringBytes "013AF00 "
    ∧ (runLoop 8 (fun _ => true) 20 (initMain [⟨58, 1, 240, 1⟩])).emitted
      ≠ bannerBytes ++ stringBytes "013AF01 " := by
  constructor
  · decide
  · decide

/-- C1 (amended): for a Sample flowing through the pipeline (dispatcher,
output queue, formatter), the rendered group is two hex digits of time_hi,
two of time_lo, two of port_state, and one digit that is '1' (49) when the
sample's kind is zero (a tick) and '0' (48) when it is nonzero (a real
capture) — the complement of the kind bit — followed by the separator and
the 0 sentinel; in particular the sample
{time_lo = 0x3A, time_hi = 0x01, port_state = 0xF0, kind = 1} renders as
`013AF00` followed by a separator. -/
theorem c1_amended_rendering (K : Nat) (hK : 2 ≤ K) :
    (∀ x : Sample, pipelineGroup K x
      = [hex (x.thi / 16), hex (x.thi % 16), hex (x.tlo / 16), hex (x.tlo % 16),
         hex (x.pv / 16), hex (x.pv % 16), (if x.kind = 0 then 49 else 48),
         32, 0])
    ∧ pipelineGroup K ⟨58, 1, 240, 1⟩ = stringBytes "013AF00 " ++ [0] := by
  have hK1 : ¬ K = 1 := by omega
  have hgen : ∀ x : Sample, pipelineGroup K x
      = [hex (x.thi / 16), hex (x.thi % 16), hex (x.tlo / 16), hex (x.tlo % 16),
         hex (x.pv / 16), hex (x.pv % 16), (if x.kind = 0 then 49 else 48),
         32, 0] := by
    intro x
    by_cases hk : x.kind = 0
    · simp [pipelineGroup, dispatch, hk, oqpush, oqnext, oqinit, oqpop,
        oqempty, entryAt, wr, formatSample, hK1, hex]
    · simp [pipelineGroup, dispatch, hk, oqpush, oqnext, oqinit, oqpop,
        oqempty, entryAt, wr, formatSample, hK1, hex]
  refine ⟨hgen, ?_⟩
  rw [hgen ⟨58, 1, 240, 1⟩]
  decide

/-- C1 witness: the amended rendering at K = 2 for the concrete sample. -/
theorem c1_witness :
    pipelineGroup 2 ⟨58, 1, 240, 1⟩ = stringBytes "013AF00 " ++ [0] :=
  (c1_amended_rendering 2 (by decide)).2

/-- C6: in every sequence of rendered samples (line counter starting fresh
at 10), the i-th group's separator is a line break exactly when i+1 is a
multiple of 10 (samples 1-9 of each group of ten get a space, the 10th a
newline, after which the counter restarts); each group is 9 bytes: 7
nonzero characters, the separator, and the 0 sentinel immediately after the
last written character; and hex maps 0-9 to '0'-'9' and 10-15 to uppercase
'A'-'F'. -/
theorem c6_formatting (l : List Sample) :
    (∀ i, i < l.length →
      ((formatList items_per_line l).getD i []).getD 7 0
          = (if (i + 1) % 10 = 0 then 10 else 32)
      ∧ ((formatList items_per_line l).getD i []).length = 9
      ∧ ((formatList items_per_line l).getD i []).getD 8 1 = 0
      ∧ ∀ j, j < 8 → ((formatList items_per_line l).getD i []).getD j 0 ≠ 0)
    ∧ (∀ v, v < 16 → hex v = (stringBytes "0123456789ABCDEF").getD v 0) := by
  constructor
  · intro i hi
    have h := formatList_shape l items_per_line i (by decide) (by decide) hi
    simpa using h
  · decide

/-- C6 witness: for ten rendered samples the 10th group ends in a newline,
and the hex table at 10 gives 'A'. -/
theorem c6_witness :
    ((formatList items_per_line (List.replicate 10 ⟨0, 0, 0, 0⟩)).getD 9
        []).getD 7 0 = 10
    ∧ hex 10 = (stringBytes "0123456789ABCDEF").getD 10 0 :=
  ⟨((c6_formatting (List.replicate 10 ⟨0, 0, 0, 0⟩)).1 9 (by decide)).1,
   (c6_formatting (List.replicate 10 ⟨0, 0, 0, 0⟩)).2 10 (by decide)⟩

/-- C7: each capture-routine invocation performs, in this order and nothing
else: one clear of the pending capture-interrupt flags before any read,
a read of the monitored port, a read of the timer low byte, then the high
byte, then the four byte stores of {time_lo, time_hi, port_state, kind} at
the write cursor (kind = 0 for the timer-rollover entry point, the
nonzero r6 constant for an edge entry point), and one advance of the write
cursor by one entry with wraparound; memory outside the four stored bytes
is untouched. -/
theorem c7_isr_order (s0 : AVRState) (h : Nat)
    (hx : s0.xreg = IQPAGE * 256 + h) (h4 : h % 4 = 0) (hlt : h < 256)
    (hr6 : s0.r6 ≠ 0) :
    ((TIMER_ISR s0).2
        = [ISREv.clearPending, ISREv.readPin, ISREv.readTlo, ISREv.readThi,
           ISREv.store (IQPAGE * 256 + h) s0.tcnt1l,
           ISREv.store (IQPAGE * 256 + h + 1) s0.tcnt1h,
           ISREv.store (IQPAGE * 256 + h + 2) s0.pin,
           ISREv.store (IQPAGE * 256 + h + 3) 0,
           ISREv.setPageHigh]
      ∧ (TIMER_ISR s0).1.xreg = IQPAGE * 256 + (h + 4) % 256
      ∧ (TIMER_ISR s0).1.mem (IQPAGE * 256 + h) = s0.tcnt1l
      ∧ (TIMER_ISR s0).1.mem (IQPAGE * 256 + h + 1) = s0.tcnt1h
      ∧ (TIMER_ISR s0).1.mem (IQPAGE * 256 + h + 2) = s0.pin
      ∧ (TIMER_ISR s0).1.mem (IQPAGE * 256 + h + 3) = 0
      ∧ (∀ a, a < IQPAGE * 256 + h ∨ IQPAGE * 256 + h + 3 < a →
          (TIMER_ISR s0).1.mem a = s0.mem a)
      ∧ (TIMER_ISR s0).1.eifr = s0.eifr &&& (255 ^^^ (s0.r6 &&& 255)))
    ∧ ((CAPTURE_ISR s0).2
        = [ISREv.clearPending, ISREv.readPin, ISREv.readTlo, ISREv.readThi,
           ISREv.store (IQPAGE * 256 + h) s0.tcnt1l,
           ISREv.store (IQPAGE * 256 + h + 1) s0.tcnt1h,
           ISREv.store (IQPAGE * 256 + h + 2) s0.pin,
           ISREv.store (IQPAGE * 256 + h + 3) s0.r6,
           ISREv.setPageHigh]
      ∧ (CAPTURE_ISR s0).1.xreg = IQPAGE * 256 + (h + 4) % 256
      ∧ (CAPTURE_ISR s0).1.mem (IQPAGE * 256 + h + 3) = s0.r6
      ∧ s0.r6 ≠ 0
      ∧ (∀ a, a < IQPAGE * 256 + h ∨ IQPAGE * 256 + h + 3 < a →
          (CAPTURE_ISR s0).1.mem a = s0.mem a)
      ∧ (CAPTURE_ISR s0).1.eifr = s0.eifr &&& (255 ^^^ (s0.r6 &&& 255))) := by
  have m1 : (1 * 256 + h + 1) % 65536 = 1 * 256 + h + 1 := by omega
  have m2 : (1 * 256 + h + 1 + 1) % 65536 = 1 * 256 + h + 2 := by omega
  have m3 : (1 * 256 + h + 2 + 1) % 65536 = 1 * 256 + h + 3 := by omega
  have m4 : (1 * 256 + h + 3 + 1) % 65536 = 1 * 256 + h + 4 := by omega
  constructor
  · unfold TIMER_ISR _CAPTURE_ISR
    simp only [IQPAGE] at hx ⊢
    rw [hx]
    simp only [m1, m2, m3, m4]
    refine ⟨trivial, by omega, ?_, ?_, ?_, ?_, ?_, trivial⟩
    · unfold wr
      rw [if_neg (by omega), if_neg (by omega), if_neg (by omega), if_pos rfl]
    · unfold wr
      rw [if_neg (by omega), if_neg (by omega), if_pos rfl]
    · unfold wr
      rw [if_neg (by omega), if_pos rfl]
    · unfold wr
      rw [if_pos rfl]
    · intro a ha
      unfold wr
      rw [if_neg (by omega), if_neg (by omega), if_neg (by omega),
          if_neg (by omega)]
  · unfold CAPTURE_ISR _CAPTURE_ISR
    simp only [IQPAGE] at hx ⊢
    rw [hx]
    simp only [m1, m2, m3, m4]
    refine ⟨trivial, by omega, ?_, hr6, ?_, trivial⟩
    · unfold wr
      rw [if_pos rfl]
    · intro a ha
      unfold wr
      rw [if_neg (by omega), if_neg (by omega), if_neg (by omega),
          if_neg (by omega)]

/-- C7 witness: the timer-rollover trace at a concrete machine state with
the write cursor at the start of the queue page. -/
theorem c7_witness :
    (TIMER_ISR
        { eifr := 255, pin := 3, tcnt1l := 7, tcnt1h := 9, r3 := 0, r4 := 0,
          r5 := 0, r6 := 15, mem := fun _ => 0, xreg := 256 }).2
      = [ISREv.clearPending, ISREv.readPin, ISREv.readTlo, ISREv.readThi,
         ISREv.store (IQPAGE * 256 + 0) 7, ISREv.store (IQPAGE * 256 + 0 + 1) 9,
         ISREv.store (IQPAGE * 256 + 0 + 2) 3, ISREv.store (IQPAGE * 256 + 0 + 3) 0,
         ISREv.setPageHigh] :=
  (c7_isr_order
    { eifr := 255, pin := 3, tcnt1l := 7, tcnt1h := 9, r3 := 0, r4 := 0,
      r5 := 0, r6 := 15, mem := fun _ => 0, xreg := 256 } 0
    (by decide) (by decide) (by decide) (by decide)).1.1

/-- C8: for any run of the main loop (any queue size, any channel-readiness
schedule, any fuel, any produced byte-valued samples), the transmitted
character stream starts with the banner `sctrace v1.01\n`, before any
sample-derived text, and the banner text occurs nowhere else in the stream
(every later character is a hex digit, space or newline, none of which can
start the banner). -/
theorem c8_banner (K : Nat) (ready : Nat → Bool) (fuel : Nat)
    (inputs : List Sample)
    (hin : ∀ x ∈ inputs, x.tlo < 256 ∧ x.thi < 256 ∧ x.pv < 256 ∧ x.kind < 256) :
    ((runLoop K ready fuel (initMain inputs)).emitted).take bannerBytes.length
        = bannerBytes
    ∧ ∀ i, 0 < i →
        (((runLoop K ready fuel (initMain inputs)).emitted).drop i).take
            bannerBytes.length ≠ bannerBytes := by
  obtain ⟨-, -, -, r, her, hr⟩ :=
    runLoop_good K ready fuel (initMain inputs) (initMain_good inputs hin)
  rw [her]
  have hlen : bannerBytes.length = 14 := rfl
  constructor
  · exact List.take_left bannerBytes r
  · intro i hi hEq
    have h115 : (bannerBytes ++ r).get? i = some 115 := by
      have h0 := take_banner_head _ hEq
      rw [List.get?_zero, head_drop_get] at h0
      exact h0
    rcases Nat.lt_or_ge i 14 with hlt | hge
    · have happ : (bannerBytes ++ r).get? i = bannerBytes.get? i :=
        List.get?_append (by rw [hlen]; omega)
      rw [happ] at h115
      exact banner_no_s i hlt hi h115
    · have happ : (bannerBytes ++ r).get? i = r.get? (i - bannerBytes.length) :=
        List.get?_append_right (by rw [hlen]; omega)
      rw [happ] at h115
      have hmem : (115 : Nat) ∈ r := List.get?_mem h115
      exact allowed_ne_s 115 (hr 115 hmem) rfl

/-- C8 witness: a concrete run (one produced capture sample, channel always
ready) starts with the banner. -/
theorem c8_witness :
    ((runLoop 8 (fun _ => true) 20
        (initMain [⟨58, 1, 240, 1⟩])).emitted).take bannerBytes.length
      = bannerBytes :=
  (c8_banner 8 (fun _ => true) 20 [⟨58, 1, 240, 1⟩] (by decide)).1
